import Mathlib

/-!
Verification of the client-side load-balancing core of the tonic grpc
prototype.  Each Rust function relevant to the checked claims is embedded
as an executable Lean definition; stateful methods are modelled by explicit
state passing.  File layout: definitions first, theorems afterwards.
-/

namespace Tonic

/-- ConnectivityState from src/grpc/src/client/channel.rs (enum ConnectivityState):
Idle, Connecting, Ready, TransientFailure. -/
inductive ConnectivityState where
  | idle
  | connecting
  | ready
  | transientFailure
deriving DecidableEq, Repr, Fintype

open ConnectivityState

/-- One iteration of the loop body of effective_state
(src/grpc/benches/lb_apis/main.rs, lines 243-261).  The first argument is the
accumulator variable connectivity_state, the second the element con_state. -/
def effective_state_step (connectivity_state con_state : ConnectivityState) :
    ConnectivityState :=
  if con_state = ready then ready
  else if con_state = connecting ∧ connectivity_state ≠ ready then connecting
  else if con_state = idle ∧ connectivity_state ≠ connecting ∧
      connectivity_state ≠ ready then idle
  else if connectivity_state ≠ ready ∧ connectivity_state ≠ connecting ∧
      connectivity_state ≠ idle then transientFailure
  else connectivity_state

/-- effective_state from src/grpc/benches/lb_apis/main.rs, lines 240-263: start
from TransientFailure and run the loop body over the iterator (modelled as a
list). -/
def effective_state (m : List ConnectivityState) : ConnectivityState :=
  m.foldl effective_state_step transientFailure

/-- The aggregate rule as worded by the spec (section 4.5), used to compare
against effective_state. -/
def aggregate_precedence (l : List ConnectivityState) : ConnectivityState :=
  if ready ∈ l then ready
  else if connecting ∈ l then connecting
  else if idle ∈ l then idle
  else transientFailure

lemma effective_state_step_comm (a b : ConnectivityState) :
    effective_state_step a b = effective_state_step b a := by
  revert a b
  decide

lemma effective_state_step_assoc (a b c : ConnectivityState) :
    effective_state_step (effective_state_step a b) c =
      effective_state_step a (effective_state_step b c) := by
  revert a b c
  decide

lemma effective_state_step_tf (a : ConnectivityState) :
    effective_state_step transientFailure a = a := by
  revert a
  decide

lemma foldl_effective_state_step (l : List ConnectivityState) :
    ∀ a : ConnectivityState,
      l.foldl effective_state_step a = effective_state_step a (effective_state l) := by
  induction l with
  | nil =>
    intro a
    simp [effective_state, effective_state_step]
    revert a
    decide
  | cons x xs ih =>
    intro a
    have hx : effective_state (x :: xs) = effective_state_step x (effective_state xs) := by
      show List.foldl effective_state_step (effective_state_step transientFailure x) xs =
        effective_state_step x (effective_state xs)
      rw [effective_state_step_tf, ih x]
    rw [hx]
    show List.foldl effective_state_step (effective_state_step a x) xs =
      effective_state_step a (effective_state_step x (effective_state xs))
    rw [ih (effective_state_step a x), effective_state_step_assoc]

lemma effective_state_cons (x : ConnectivityState) (l : List ConnectivityState) :
    effective_state (x :: l) = effective_state_step x (effective_state l) := by
  show List.foldl effective_state_step (effective_state_step transientFailure x) l =
    effective_state_step x (effective_state l)
  rw [effective_state_step_tf, foldl_effective_state_step]

lemma effective_state_perm {l₁ l₂ : List ConnectivityState} (h : l₁.Perm l₂) :
    effective_state l₁ = effective_state l₂ := by
  induction h with
  | nil => rfl
  | cons x h ih => rw [effective_state_cons, effective_state_cons, ih]
  | swap x y l =>
    rw [effective_state_cons, effective_state_cons, effective_state_cons,
      effective_state_cons, ← effective_state_step_assoc,
      ← effective_state_step_assoc, effective_state_step_comm y x]
  | trans h₁ h₂ ih₁ ih₂ => rw [ih₁, ih₂]

lemma effective_state_eq_precedence (l : List ConnectivityState) :
    effective_state l = aggregate_precedence l := by
  induction l with
  | nil => rfl
  | cons x xs ih =>
    rw [effective_state_cons, ih]
    by_cases hR : ready ∈ xs <;> by_cases hC : connecting ∈ xs <;>
      by_cases hI : idle ∈ xs <;> cases x <;>
      simp [aggregate_precedence, hR, hC, hI, effective_state_step]

/-- Pickers produced by policies.  queuing is QueuingPicker (mod.rs), one is
OneSubchannelPicker from pick_first.rs (sc = subchannel id), rr is
RRPickerPicker from delegating_policy.rs holding its snapshot of child
pickers, tagged stands for an arbitrary other picker object. -/
inductive Picker where
  | queuing
  | one (sc : Nat)
  | rr (children : List Picker)
  | tagged (n : Nat)

/-- LbState from src/grpc/src/client/load_balancing/mod.rs. -/
structure LbState where
  connectivity_state : ConnectivityState
  picker : Picker

/-- LbState::initial (mod.rs lines 157-162): Connecting plus a queueing picker. -/
def LbState.initial : LbState :=
  { connectivity_state := connecting, picker := Picker.queuing }

/-- RRPickerPicker::pick (delegating_policy.rs lines 127-132): the atomic
cursor value read by fetch_add is passed as idx; the selected child picker is
children[idx % children.len()].  A none result models the Rust panic (the
remainder-by-zero / out-of-bounds case). -/
def rrPickerPick (children : List Picker) (idx : Nat) : Option Picker :=
  children.get? (idx % children.length)

/-- DelegatingPolicy::update_picker (delegating_policy.rs lines 54-83), as a
function of the child_states snapshot, returning the LbState passed to
channel_controller.update_picker. -/
def delegating_update_picker (child_states : List LbState) : LbState :=
  let connectivity_state :=
    effective_state (child_states.map LbState.connectivity_state)
  if connectivity_state = ready ∨ connectivity_state = transientFailure then
    { connectivity_state := connectivity_state,
      picker := Picker.rr (child_states.filterMap fun lbstate =>
        if lbstate.connectivity_state = connectivity_state then
          some lbstate.picker
        else none) }
  else
    { connectivity_state := connectivity_state, picker := Picker.queuing }

section AssocMap

variable {κ : Type} [DecidableEq κ] {β : Type}

/-- Association-list model of std HashMap: lookup by key (first match; keys
are kept unique by mapInsert). -/
def alookup : List (κ × β) → κ → Option β
  | [], _ => none
  | e :: rest, k => if e.1 = k then some e.2 else alookup rest k

/-- HashMap::remove, dropping every entry with the given key. -/
def removeKey : List (κ × β) → κ → List (κ × β)
  | [], _ => []
  | e :: rest, k => if e.1 = k then removeKey rest k else e :: removeKey rest k

/-- HashMap::insert: replaces any existing entry for the key. -/
def mapInsert (m : List (κ × β)) (k : κ) (v : β) : List (κ × β) :=
  removeKey m k ++ [(k, v)]

lemma alookup_removeKey (m : List (κ × β)) (k x : κ) :
    alookup (removeKey m k) x = if x = k then none else alookup m x := by
  induction m with
  | nil => simp [alookup, removeKey]
  | cons e rest ih =>
    by_cases he : e.1 = k
    · simp only [removeKey, if_pos he]
      rw [ih]
      by_cases hx : x = k
      · simp [hx]
      · simp only [if_neg hx, alookup]
        rw [if_neg]
        intro hex
        exact hx (by rw [← hex, he])
    · simp only [removeKey, if_neg he]
      by_cases hex : e.1 = x
      · have hx : ¬ x = k := by
          rw [← hex]
          exact he
        simp [alookup, hex, hx]
      · simp [alookup, hex, ih]

lemma alookup_append (m₁ m₂ : List (κ × β)) (x : κ) :
    alookup (m₁ ++ m₂) x =
      match alookup m₁ x with
      | some v => some v
      | none => alookup m₂ x := by
  induction m₁ with
  | nil => simp [alookup]
  | cons e rest ih =>
    by_cases he : e.1 = x <;> simp [alookup, he, ih]

lemma alookup_mapInsert (m : List (κ × β)) (k : κ) (v : β) (x : κ) :
    alookup (mapInsert m k v) x = if x = k then some v else alookup m x := by
  rw [mapInsert, alookup_append, alookup_removeKey]
  by_cases hx : x = k
  · subst hx
    simp [alookup]
  · have hkx : ¬ k = x := fun h => hx h.symm
    cases h : alookup m x <;> simp [hx, hkx, alookup, h]

lemma alookup_mem {m : List (κ × β)} {k : κ} {v : β}
    (h : alookup m k = some v) : (k, v) ∈ m := by
  induction m with
  | nil => simp [alookup] at h
  | cons e rest ih =>
    obtain ⟨a, b⟩ := e
    by_cases he : a = k
    · subst he
      simp [alookup] at h
      subst h
      exact List.mem_cons_self _ _
    · simp [alookup, he] at h
      exact List.mem_cons_of_mem _ (ih h)

end AssocMap

/-- self.children[child_idx].state = ... style in-place update of one list
element. -/
def listModify {α : Type} (f : α → α) : List α → Nat → List α
  | [], _ => []
  | x :: xs, 0 => f x :: xs
  | x :: xs, n + 1 => x :: listModify f xs n

lemma listModify_get_ne {α : Type} (f : α → α) (l : List α) (i j : Nat)
    (h : j ≠ i) : (listModify f l i).get? j = l.get? j := by
  induction l generalizing i j with
  | nil => simp [listModify]
  | cons x xs ih =>
    cases i with
    | zero =>
      cases j with
      | zero => exact absurd rfl h
      | succ j => simp [listModify]
    | succ i =>
      cases j with
      | zero => simp [listModify]
      | succ j => simpa [listModify] using ih i j (fun hji => h (by rw [hji]))

lemma listModify_get_eq {α : Type} (f : α → α) (l : List α) (i : Nat) :
    (listModify f l i).get? i = (l.get? i).map f := by
  induction l generalizing i with
  | nil => simp [listModify]
  | cons x xs ih =>
    cases i with
    | zero => simp [listModify]
    | succ i => simpa [listModify] using ih i

lemma listModify_length {α : Type} (f : α → α) (l : List α) (i : Nat) :
    (listModify f l i).length = l.length := by
  induction l generalizing i with
  | nil => simp [listModify]
  | cons x xs ih =>
    cases i with
    | zero => simp [listModify]
    | succ i => simpa [listModify] using ih i

/-- Subchannels are identity-bearing handles; equality and hashing are by id
(mod.rs lines 196-236), so a Subchannel is modelled by its id. -/
abbrev Subchannel := Nat

/-- Child from child_manager_single.rs lines 27-31.  The boxed policy trait
object is modelled by a process-unique instance id: builder.build always
returns a brand-new object, modelled by drawing a fresh id from a supply. -/
structure Child (T : Type) where
  identifier : T
  policy : Nat
  state : LbState

/-- The mutable fields of ChildManager (child_manager_single.rs lines 19-25).
The two HashMaps are modelled as association lists with unique keys. -/
structure ChildManagerState (T : Type) where
  subchannel_child_map : List (Subchannel × Nat)
  children : List (Child T)

/-- ChildUpdate (child_manager_single.rs lines 33-37).  The boxed
child_policy_builder is not carried: every builder builds a fresh policy
instance, modelled by the fresh-id supply in reconcile. -/
structure ChildUpdate (T U : Type) where
  child_identifier : T
  child_update : U

/-- The externally observable effects of one call into a child policy trait
object, as seen through the WrappedController: whether the call returned Err,
the subchannels it created, and the picker update it issued (captured, at most
one is retained since WrappedController stores an Option). -/
structure ChildEffect where
  err : Bool
  created_subchannels : List Subchannel
  picker_update : Option LbState

/-- The body of the entry().or_insert(vec![]).push() loop that inverts the
subchannel map (child_manager_single.rs lines 99-105): append sc to the group
of key k. -/
def pushEntry : List (Nat × List Subchannel) → Nat → Subchannel →
    List (Nat × List Subchannel)
  | [], k, sc => [(k, [sc])]
  | e :: rest, k, sc =>
    if e.1 = k then (e.1, e.2 ++ [sc]) :: rest else e :: pushEntry rest k sc

/-- Inversion of the subchannel map into child-index → owned subchannels
(child_manager_single.rs lines 98-105). -/
def invert (m : List (Subchannel × Nat)) : List (Nat × List Subchannel) :=
  m.foldl (fun acc e => pushEntry acc e.2 e.1) []

/-- Hashing the old children by identifier (child_manager_single.rs lines
107-112): collect (identifier, (policy, state, old_idx)) into a HashMap;
inserts replace, so a duplicate identifier keeps the last entry. -/
def buildOldMap {T : Type} [DecidableEq T] (children : List (Child T)) :
    List (T × (Nat × LbState × Nat)) :=
  (children.enum.map fun e => (e.2.identifier, (e.2.policy, e.2.state, e.1))).foldl
    (fun m e => mapInsert m e.1 e.2) []

/-- Accumulator of the transfer loop: the children vector being rebuilt, the
subchannel map being rebuilt, and the supply of fresh policy-instance ids. -/
structure RecAcc (T : Type) where
  children : List (Child T)
  scMap : List (Subchannel × Nat)
  nextPid : Nat

/-- The transfer loop of ChildManager::resolver_update (child_manager_single.rs
lines 120-148): for each new identifier in order, either take over the old
child with the equal identifier (policy, state, and its subchannels re-pointed
to the new index = current length of the rebuilt children vector), or build a
fresh child with LbState::initial(). -/
def reconcile {T : Type} [DecidableEq T] (oldMap : List (T × (Nat × LbState × Nat)))
    (oldInv : List (Nat × List Subchannel)) (ids : List T) (acc : RecAcc T) :
    RecAcc T :=
  match ids with
  | [] => acc
  | identifier :: rest =>
    match alookup oldMap identifier with
    | some pst =>
      let scs := (alookup oldInv pst.2.2).getD []
      let scMap2 := scs.foldl (fun m sc => mapInsert m sc acc.children.length) acc.scMap
      reconcile (removeKey oldMap identifier) (removeKey oldInv pst.2.2) rest
        { children := acc.children ++ [⟨identifier, pst.1, pst.2.1⟩],
          scMap := scMap2,
          nextPid := acc.nextPid }
    | none =>
      reconcile oldMap oldInv rest
        { children := acc.children ++ [⟨identifier, acc.nextPid, LbState.initial⟩],
          scMap := acc.scMap,
          nextPid := acc.nextPid + 1 }

/-- The fan-out loop of ChildManager::resolver_update (child_manager_single.rs
lines 151-161), walking the children positionally (idx is the absolute child
index): the child policy call is modelled by beh, its Err result is discarded
(let _ = ...), resolve_child_controller stores the captured picker update into
the calling child slot and returns the (subchannel, child index) entries to
insert. -/
def fanoutGo {T U : Type} (beh : Nat → U → ChildEffect) (idx : Nat) :
    List (Child T) → List U → List (Child T) × List (Subchannel × Nat)
  | [], _ => ([], [])
  | c :: cs, [] => (c :: cs, [])
  | c :: cs, u :: us =>
    let eff := beh c.policy u
    let c2 : Child T :=
      match eff.picker_update with
      | some st => { c with state := st }
      | none => c
    let r := fanoutGo beh (idx + 1) cs us
    (c2 :: r.1, eff.created_subchannels.map (fun sc => (sc, idx)) ++ r.2)

/-- Fan-out over all children, inserting every created subchannel into the
subchannel map at the owning child index (resolve_child_controller,
child_manager_single.rs lines 63-74, applied once per child in order). -/
def fanout {T U : Type} (beh : Nat → U → ChildEffect) (children : List (Child T))
    (updates : List U) (scMap : List (Subchannel × Nat)) :
    List (Child T) × List (Subchannel × Nat) :=
  let r := fanoutGo beh 0 children updates
  (r.1, r.2.foldl (fun m e => mapInsert m e.1 e.2) scMap)

/-- Result of one ChildManager::resolver_update call: err is the value returned
(some e models returning Err(e)), state and nextPid are the fields of self
afterwards, fanned lists the child indices whose resolver_update was invoked,
in order. -/
structure UpdateResult (T : Type) where
  err : Option Nat
  state : ChildManagerState T
  nextPid : Nat
  fanned : List Nat

/-- ChildManager::resolver_update (child_manager_single.rs lines 79-163).
shard is the policy-supplied sharding function (errors are Nat codes), beh the
behavior of child policy instances (by instance id), u the incoming
ResolverUpdate (kept abstract as U).  On sharding failure the call returns the
error before any mutation.  Otherwise children are reconciled and every child
receives its sharded update; child errors are discarded. -/
def cm_resolver_update {T U : Type} [DecidableEq T]
    (shard : U → Except Nat (List (ChildUpdate T U)))
    (beh : Nat → U → ChildEffect)
    (s : ChildManagerState T) (nextPid : Nat) (u : U) : UpdateResult T :=
  match shard u with
  | .error e => ⟨some e, s, nextPid, []⟩
  | .ok child_updates =>
    let ids := child_updates.map ChildUpdate.child_identifier
    let updates := child_updates.map ChildUpdate.child_update
    let oldMap := buildOldMap s.children
    let oldInv := invert s.subchannel_child_map
    let acc := reconcile oldMap oldInv ids ⟨[], [], nextPid⟩
    let r := fanout beh acc.children updates acc.scMap
    ⟨none, ⟨r.2, r.1⟩, acc.nextPid, List.range acc.children.length⟩

/-- ChildManager::subchannel_update (child_manager_single.rs lines 165-176).
behSc models the owning child policy instance reacting to the subchannel state
change (by instance id and subchannel).  The .unwrap() on the ownership lookup
panics when the subchannel is not in the map; none models that panic. -/
def cm_subchannel_update {T : Type} (behSc : Nat → Subchannel → ChildEffect)
    (s : ChildManagerState T) (subchannel : Subchannel) :
    Option (ChildManagerState T) :=
  match alookup s.subchannel_child_map subchannel with
  | none => none
  | some child_idx =>
    match s.children.get? child_idx with
    | none => none
    | some c =>
      let eff := behSc c.policy subchannel
      let scMap2 := eff.created_subchannels.foldl
        (fun m sc => mapInsert m sc child_idx) s.subchannel_child_map
      let children2 :=
        match eff.picker_update with
        | some st => listModify (fun ch => { ch with state := st }) s.children child_idx
        | none => s.children
      some ⟨scMap2, children2⟩

/-- The real channel controller underneath a WrappedController, modelled as a
log of the calls it received plus the id supply for subchannel creation. -/
structure ControllerLog where
  nextSc : Nat
  created : List Subchannel
  pickers : List LbState
  resolutions : Nat

/-- ChannelController::new_subchannel on the underlying controller: allocate a
fresh subchannel handle and record it. -/
def cc_new_subchannel (c : ControllerLog) : ControllerLog × Subchannel :=
  ({ c with nextSc := c.nextSc + 1, created := c.created ++ [c.nextSc] }, c.nextSc)

/-- ChannelController::update_picker on the underlying controller: the LbState
is published to the channel. -/
def cc_update_picker (c : ControllerLog) (update : LbState) : ControllerLog :=
  { c with pickers := c.pickers ++ [update] }

/-- ChannelController::request_resolution on the underlying controller. -/
def cc_request_resolution (c : ControllerLog) : ControllerLog :=
  { c with resolutions := c.resolutions + 1 }

/-- WrappedController (child_manager_single.rs lines 191-205): the borrowed
underlying controller plus the created_subchannels and picker_update capture
fields, both starting empty. -/
structure WrappedController where
  inner : ControllerLog
  created_subchannels : List Subchannel
  picker_update : Option LbState

/-- WrappedController::new (child_manager_single.rs lines 198-204). -/
def WrappedController.make (inner : ControllerLog) : WrappedController :=
  ⟨inner, [], none⟩

/-- WrappedController::new_subchannel (child_manager_single.rs lines 208-212):
forwards to the underlying controller and records the returned subchannel. -/
def wc_new_subchannel (w : WrappedController) : WrappedController × Subchannel :=
  let r := cc_new_subchannel w.inner
  ({ w with inner := r.1, created_subchannels := w.created_subchannels ++ [r.2] },
    r.2)

/-- WrappedController::update_picker (child_manager_single.rs lines 214-216):
stores the update into picker_update; nothing reaches the underlying
controller. -/
def wc_update_picker (w : WrappedController) (update : LbState) :
    WrappedController :=
  { w with picker_update := some update }

/-- WrappedController::request_resolution (child_manager_single.rs lines
218-220): forwarded verbatim. -/
def wc_request_resolution (w : WrappedController) : WrappedController :=
  { w with inner := cc_request_resolution w.inner }

/-- ChildManager::resolve_child_controller (child_manager_single.rs lines
63-74): record the created subchannels as owned by child_idx and store the
captured picker update, if any, into that child slot. -/
def resolve_child_controller {T : Type} (s : ChildManagerState T)
    (w : WrappedController) (child_idx : Nat) : ChildManagerState T :=
  { subchannel_child_map :=
      w.created_subchannels.foldl (fun m csc => mapInsert m csc child_idx)
        s.subchannel_child_map,
    children :=
      match w.picker_update with
      | some st => listModify (fun ch => { ch with state := st }) s.children child_idx
      | none => s.children }

/-- ResolverUpdate (name_resolution/mod.rs lines 99-102): an error variant or
resolver data.  For pick_first only the endpoint/address shape matters:
endpoints is the list of endpoints, each carrying its list of addresses
(address identity is an opaque token). -/
inductive ResolverUpdate where
  | err
  | data (endpoints : List (List Nat))

/-- The subchannel and address state of PickFirstPolicy (pick_first.rs lines
77-81). -/
structure PickFirstState where
  subchannels : List Subchannel
  next_addresses : List Nat

/-- PickFirstPolicy::resolver_update (pick_first.rs lines 84-129).  shuffle
stands for rand SliceRandom::shuffle (a permutation of its input);
shuffle_address_list is the effective config flag.  Returns the Result
together with the state of self and of the controller after the call (both
are untouched on the error paths).  Vec::pop takes the last element. -/
def pick_first_resolver_update (shuffle : List Nat → List Nat)
    (shuffle_address_list : Bool) (update : ResolverUpdate)
    (st : PickFirstState) (ctrl : ControllerLog) :
    Except String Unit × PickFirstState × ControllerLog :=
  match update with
  | .err => (.error "unhandled", st, ctrl)
  | .data endpoints =>
    match endpoints.head? with
    | none => (.error "no endpoints", st, ctrl)
    | some ep =>
      let addresses := if shuffle_address_list then shuffle ep else ep
      match addresses.getLast? with
      | none => (.error "no addresses", st, ctrl)
      | some _address =>
        let r := cc_new_subchannel ctrl
        (.ok (), { subchannels := [r.2], next_addresses := addresses.dropLast },
          r.1)

/-- The coalescing state of GracefulSwitchBalancer (channel.rs lines 316-342):
pending is the Mutex<bool> flag, queued counts the work closures sitting in the
channel work queue that have not yet started running. -/
structure WorkState where
  pending : Bool
  queued : Nat

/-- GracefulSwitchBalancer::schedule_work (channel.rs lines 323-342):
mem::replace(pending, true); if it was already true, return without enqueuing;
otherwise send one work closure to the queue. -/
def schedule_work (s : WorkState) : WorkState :=
  if s.pending then s else { pending := true, queued := s.queued + 1 }

/-- The queued closure starting to run (channel.rs lines 331-340): it first
resets pending to false, then calls policy.work.  A start with an empty queue
cannot happen and is a no-op. -/
def start_scheduled_work (s : WorkState) : WorkState :=
  if s.queued = 0 then s else { pending := false, queued := s.queued - 1 }

/-- Interleavings of schedule_work calls and work-closure starts. -/
inductive WorkEvent where
  | schedule
  | start

def work_run : WorkState → List WorkEvent → WorkState
  | s, [] => s
  | s, .schedule :: evs => work_run (schedule_work s) evs
  | s, .start :: evs => work_run (start_scheduled_work s) evs

/-- Initial balancer state: Mutex::default() gives pending = false and an
empty work queue. -/
def work_init : WorkState := ⟨false, 0⟩

/-- InternalSubchannelState (subchannel.rs lines 29-34); the AbortHandle and
connection payloads are not needed for the connect-gating claim. -/
inductive InternalSubchannelState where
  | idle
  | connecting
  | ready
  | transientFailure
deriving DecidableEq, Repr

/-- InternalSubchannel::connect (subchannel.rs lines 75-109): the new state and
whether a connection attempt task was spawned.  Only Idle spawns; Connecting,
Ready and TransientFailure leave the state alone and spawn nothing. -/
def isc_connect : InternalSubchannelState → InternalSubchannelState × Bool
  | .idle => (.connecting, true)
  | .connecting => (.connecting, false)
  | .ready => (.ready, false)
  | .transientFailure => (.transientFailure, false)

/-- Number of live connection attempts or connections implied by a state:
Connecting holds the one spawned attempt task, Ready holds the one connected
transport. -/
def isc_live : InternalSubchannelState → Nat
  | .idle => 0
  | .connecting => 1
  | .ready => 1
  | .transientFailure => 0

/-- Events driving one InternalSubchannel: a connect() call, the spawned
attempt task reaching to_ready (subchannel.rs line 95, only possible while the
attempt is live, i.e. in Connecting), and the transport disconnect resolving
followed by to_idle (line 97, only possible while Ready). -/
inductive IscEvent where
  | connectCall
  | attemptReady
  | disconnected

/-- Step of the subchannel trace: the second component counts live attempt
tasks / connections (incremented exactly when connect spawns, handed from
attempt to connection at to_ready, released at to_idle). -/
def isc_step : InternalSubchannelState × Nat → IscEvent →
    InternalSubchannelState × Nat
  | (s, n), .connectCall =>
    ((isc_connect s).1, if (isc_connect s).2 then n + 1 else n)
  | (s, n), .attemptReady =>
    match s with
    | .connecting => (.ready, n)
    | _ => (s, n)
  | (s, n), .disconnected =>
    match s with
    | .ready => (.idle, n - 1)
    | _ => (s, n)

/-- A whole trace from the initial Idle state with no live attempt. -/
def isc_run (evs : List IscEvent) : InternalSubchannelState × Nat :=
  evs.foldl isc_step (.idle, 0)

/-- Sharding function used to exhibit the C4 behavior: two children. -/
def c4_shard : Nat → Except Nat (List (ChildUpdate Nat Nat)) :=
  fun _ => .ok [⟨5, 10⟩, ⟨6, 11⟩]

/-- Child behavior used to exhibit the C4 behavior: every child call fails. -/
def c4_beh : Nat → Nat → ChildEffect :=
  fun _ _ => ⟨true, [], none⟩

/-- The subchannels grouped under key k by the inversion loop, in iteration
order: the firsts of the map entries whose child index equals k. -/
def selKey : List (Subchannel × Nat) → Nat → List Subchannel
  | [], _ => []
  | e :: rest, k => if e.2 = k then e.1 :: selKey rest k else selKey rest k

/-- Companion of reconcile describing the children list it builds: the
identifier-matched transfer or fresh construction per new identifier, with np
the fresh policy-id supply. -/
def reconChildren {T : Type} [DecidableEq T]
    (oldMap : List (T × (Nat × LbState × Nat))) (ids : List T) (np : Nat) :
    List (Child T) :=
  match ids with
  | [] => []
  | identifier :: rest =>
    match alookup oldMap identifier with
    | some pst =>
      ⟨identifier, pst.1, pst.2.1⟩ :: reconChildren (removeKey oldMap identifier) rest np
    | none =>
      ⟨identifier, np, LbState.initial⟩ :: reconChildren oldMap rest (np + 1)

/-- Sharding function used to exercise the C2 reconciliation: identifier 2 is
kept (old child B), identifier 3 is new. -/
def c2_shard : Nat → Except Nat (List (ChildUpdate Nat Nat)) :=
  fun _ => .ok [⟨2, 0⟩, ⟨3, 0⟩]

/-- Child behavior used to exercise the C2 reconciliation: no controller
effects. -/
def c2_beh : Nat → Nat → ChildEffect :=
  fun _ _ => ⟨false, [], none⟩

/-- Manager state used to exercise the C2 reconciliation: children A (id 1,
policy 100, owns subchannel 50) and B (id 2, policy 101, owns subchannel
51). -/
def c2_old : ChildManagerState Nat :=
  ⟨[(50, 0), (51, 1)],
    [⟨1, 100, ⟨idle, Picker.tagged 1⟩⟩, ⟨2, 101, ⟨ready, Picker.tagged 2⟩⟩]⟩

/-! Theorems. -/

/-- C1: for every finite multiset of child ConnectivityStates, the aggregate
computed by effective_state is independent of iteration order and equals:
READY if any element is READY; else CONNECTING if any is CONNECTING; else IDLE
if any is IDLE; else (all TRANSIENT_FAILURE, or the empty multiset)
TRANSIENT_FAILURE. -/
theorem effective_state_order_independent_and_precedence :
    (∀ l₁ l₂ : List ConnectivityState, l₁.Perm l₂ →
      effective_state l₁ = effective_state l₂) ∧
    (∀ l : List ConnectivityState, effective_state l = aggregate_precedence l) :=
  ⟨fun _ _ h => effective_state_perm h, effective_state_eq_precedence⟩

theorem effective_state_order_independent_and_precedence_witness :
    ([ready, idle] : List ConnectivityState).Perm [idle, ready] ∧
    effective_state [ready, idle] = effective_state [idle, ready] ∧
    effective_state [idle, ready] = aggregate_precedence [idle, ready] :=
  ⟨List.Perm.swap idle ready [],
    effective_state_order_independent_and_precedence.1 _ _
      (List.Perm.swap idle ready []),
    effective_state_order_independent_and_precedence.2 [idle, ready]⟩

/-- C5, failing case: with zero children the aggregate over the empty state
set is TransientFailure, and DelegatingPolicy::update_picker publishes an
RRPickerPicker over an empty snapshot instead of a queuing or failing picker;
a pick on it indexes with idx % 0 (none models that panic). -/
theorem delegating_update_picker_empty_publishes_empty_rr :
    delegating_update_picker [] =
      { connectivity_state := transientFailure, picker := Picker.rr [] } ∧
    rrPickerPick [] 0 = none ∧ rrPickerPick [] 1 = none :=
  ⟨rfl, rfl, rfl⟩

/-- C7: pick_first resolver_update returns the error "no endpoints" on zero
endpoints and "no addresses" when the first endpoint has zero addresses; in
both cases the policy state and the channel controller (hence any installed
picker, and the set of subchannels) are untouched. -/
theorem pick_first_resolver_update_error_cases
    (shuffle : List Nat → List Nat) (hs : ∀ l, (shuffle l).Perm l)
    (shuffle_address_list : Bool) (st : PickFirstState) (ctrl : ControllerLog) :
    pick_first_resolver_update shuffle shuffle_address_list
        (ResolverUpdate.data []) st ctrl = (.error "no endpoints", st, ctrl) ∧
    ∀ eps, pick_first_resolver_update shuffle shuffle_address_list
        (ResolverUpdate.data ([] :: eps)) st ctrl =
      (.error "no addresses", st, ctrl) := by
  constructor
  · rfl
  · intro eps
    have hnil : shuffle [] = [] := List.Perm.eq_nil (hs [])
    cases shuffle_address_list <;>
      simp [pick_first_resolver_update, hnil]

theorem pick_first_resolver_update_error_cases_witness :
    pick_first_resolver_update id true (ResolverUpdate.data []) ⟨[], []⟩
        ⟨0, [], [], 0⟩ = (.error "no endpoints", ⟨[], []⟩, ⟨0, [], [], 0⟩) ∧
    pick_first_resolver_update id true (ResolverUpdate.data [[]]) ⟨[], []⟩
        ⟨0, [], [], 0⟩ = (.error "no addresses", ⟨[], []⟩, ⟨0, [], [], 0⟩) :=
  ⟨(pick_first_resolver_update_error_cases id (fun l => List.Perm.refl l)
      true _ _).1,
    (pick_first_resolver_update_error_cases id (fun l => List.Perm.refl l)
      true _ _).2 []⟩

lemma work_run_invariant : ∀ (evs : List WorkEvent) (s : WorkState),
    s.queued = (if s.pending then 1 else 0) →
    (work_run s evs).queued = (if (work_run s evs).pending then 1 else 0) := by
  intro evs
  induction evs with
  | nil => intro s h; exact h
  | cons e evs ih =>
    intro s h
    cases e with
    | schedule =>
      refine ih (schedule_work s) ?_
      by_cases hp : s.pending <;> simp [schedule_work, hp] <;> simp [hp] at h <;>
        simp [h]
    | start =>
      refine ih (start_scheduled_work s) ?_
      by_cases hq : s.queued = 0
      · simpa [start_scheduled_work, hq] using h
      · have hp : s.pending = true := by
          by_cases hp : s.pending
          · exact hp
          · rw [h] at hq
            simp [hp] at hq
        have h1 : s.queued = 1 := by rw [h, if_pos hp]
        simp [start_scheduled_work, hq, h1]

/-- C8: along every trace of schedule_work calls and work-closure starts from
the initial state, at most one scheduled work call is pending in the queue;
schedule_work while one is pending does not enqueue; once the pending closure
starts it resets the flag, so a later schedule_work enqueues again. -/
theorem schedule_work_coalesces :
    (∀ evs : List WorkEvent, (work_run work_init evs).queued ≤ 1) ∧
    (∀ s : WorkState, s.pending = true → schedule_work s = s) ∧
    (∀ s : WorkState, s.pending = false →
      (schedule_work s).pending = true ∧
      (schedule_work s).queued = s.queued + 1) ∧
    (∀ s : WorkState, 0 < s.queued →
      (start_scheduled_work s).pending = false) := by
  refine ⟨?_, ?_, ?_, ?_⟩
  · intro evs
    have h := work_run_invariant evs work_init rfl
    rw [h]
    by_cases hp : (work_run work_init evs).pending <;> simp [hp]
  · intro s hp
    simp [schedule_work, hp]
  · intro s hp
    simp [schedule_work, hp]
  · intro s hq
    have : ¬ s.queued = 0 := Nat.pos_iff_ne_zero.mp hq
    simp [start_scheduled_work, this]

theorem schedule_work_coalesces_witness :
    (work_run work_init [.schedule, .schedule, .start, .schedule]).queued ≤ 1 ∧
    schedule_work ⟨true, 1⟩ = ⟨true, 1⟩ ∧
    (schedule_work ⟨false, 0⟩).pending = true ∧
    (start_scheduled_work ⟨true, 1⟩).pending = false :=
  ⟨schedule_work_coalesces.1 [.schedule, .schedule, .start, .schedule],
    schedule_work_coalesces.2.1 ⟨true, 1⟩ rfl,
    (schedule_work_coalesces.2.2.1 ⟨false, 0⟩ rfl).1,
    schedule_work_coalesces.2.2.2 ⟨true, 1⟩ (by decide)⟩

lemma isc_step_invariant (e : IscEvent) (s : InternalSubchannelState) (n : Nat)
    (h : n = isc_live s) :
    (isc_step (s, n) e).2 = isc_live (isc_step (s, n) e).1 := by
  subst h
  cases e <;> cases s <;> simp [isc_step, isc_connect, isc_live]

/-- C9: InternalSubchannel::connect is a no-op unless the subchannel is Idle
(no second attempt is started from Connecting, Ready or TransientFailure), and
along every event trace the number of live connection attempts or connections
is at most one. -/
theorem isc_connect_no_duplicate_attempts :
    (∀ s : InternalSubchannelState, s ≠ .idle → isc_connect s = (s, false)) ∧
    isc_connect .idle = (.connecting, true) ∧
    (∀ evs : List IscEvent,
      (isc_run evs).2 = isc_live (isc_run evs).1 ∧ (isc_run evs).2 ≤ 1) := by
  refine ⟨?_, rfl, ?_⟩
  · intro s hs
    cases s with
    | idle => exact absurd rfl hs
    | connecting => rfl
    | ready => rfl
    | transientFailure => rfl
  · intro evs
    have key : ∀ (l : List IscEvent) (p : InternalSubchannelState × Nat),
        p.2 = isc_live p.1 →
        (l.foldl isc_step p).2 = isc_live (l.foldl isc_step p).1 := by
      intro l
      induction l with
      | nil => intro p h; exact h
      | cons e l ih =>
        intro p h
        refine ih (isc_step p e) ?_
        obtain ⟨s, n⟩ := p
        exact isc_step_invariant e s n h
    have h2 : (isc_run evs).2 = isc_live (isc_run evs).1 :=
      key evs (.idle, 0) rfl
    refine ⟨h2, ?_⟩
    rw [h2]
    cases (isc_run evs).1 <;> simp [isc_live]

theorem isc_connect_no_duplicate_attempts_witness :
    (InternalSubchannelState.connecting ≠ .idle) ∧
    isc_connect .connecting = (.connecting, false) ∧
    (isc_run [.connectCall, .connectCall, .attemptReady]).2 ≤ 1 :=
  ⟨by decide,
    isc_connect_no_duplicate_attempts.1 .connecting (by decide),
    (isc_connect_no_duplicate_attempts.2.2
      [.connectCall, .connectCall, .attemptReady]).2⟩

/-- C10: a subchannel_update for a Subchannel absent from the ownership map
panics (the .unwrap() on the lookup), modelled by the none result, rather than
being ignored or reported as an error. -/
theorem cm_subchannel_update_unknown_subchannel_panics {T : Type}
    (behSc : Nat → Subchannel → ChildEffect) (s : ChildManagerState T)
    (subchannel : Subchannel)
    (h : alookup s.subchannel_child_map subchannel = none) :
    cm_subchannel_update behSc s subchannel = none := by
  simp [cm_subchannel_update, h]

theorem cm_subchannel_update_unknown_subchannel_panics_witness :
    alookup ([(2, 0)] : List (Subchannel × Nat)) 3 = none ∧
    cm_subchannel_update (fun _ _ => ⟨false, [], none⟩)
      (⟨[(2, 0)], [⟨0, 7, LbState.initial⟩]⟩ : ChildManagerState Nat) 3 = none :=
  ⟨rfl, cm_subchannel_update_unknown_subchannel_panics _ _ _ rfl⟩

/-- C3: when the sharding function fails, resolver_update returns that error,
the manager state (children and ownership map) is exactly as before, and no
child policy resolver_update is invoked. -/
theorem cm_resolver_update_shard_error_no_mutation {T U : Type} [DecidableEq T]
    (shard : U → Except Nat (List (ChildUpdate T U)))
    (beh : Nat → U → ChildEffect) (s : ChildManagerState T) (nextPid : Nat)
    (u : U) (e : Nat) (h : shard u = .error e) :
    cm_resolver_update shard beh s nextPid u = ⟨some e, s, nextPid, []⟩ := by
  simp [cm_resolver_update, h]

theorem cm_resolver_update_shard_error_no_mutation_witness :
    (fun _ : Nat => (Except.error 7 : Except Nat (List (ChildUpdate Nat Nat)))) 0
        = .error 7 ∧
    cm_resolver_update (fun _ => .error 7) (fun _ _ => ⟨false, [], none⟩)
        (⟨[(2, 0)], [⟨0, 7, LbState.initial⟩]⟩ : ChildManagerState Nat) 5 0 =
      ⟨some 7, ⟨[(2, 0)], [⟨0, 7, LbState.initial⟩]⟩, 5, []⟩ :=
  ⟨rfl, cm_resolver_update_shard_error_no_mutation _ _ _ _ _ _ rfl⟩

/-- C4 counterexample: both children return Err from resolver_update, yet the
parent resolver_update returns Ok (no error is returned) and fans out to every
child (no short-circuit). -/
theorem cm_resolver_update_child_error_swallowed :
    (c4_beh 0 10).err = true ∧
    (cm_resolver_update c4_shard c4_beh ⟨[], []⟩ 0 0).err = none ∧
    (cm_resolver_update c4_shard c4_beh ⟨[], []⟩ 0 0).fanned = [0, 1] :=
  ⟨rfl, rfl, rfl⟩

lemma reconcile_children_length {T : Type} [DecidableEq T] :
    ∀ (ids : List T) (oldMap : List (T × (Nat × LbState × Nat)))
      (oldInv : List (Nat × List Subchannel)) (acc : RecAcc T),
      (reconcile oldMap oldInv ids acc).children.length =
        acc.children.length + ids.length := by
  intro ids
  induction ids with
  | nil => intro oldMap oldInv acc; simp [reconcile]
  | cons identifier rest ih =>
    intro oldMap oldInv acc
    rw [reconcile]
    cases h : alookup oldMap identifier <;> simp [h, ih] <;> omega

/-- C4 amended: errors from child policies during resolver_update fan-out are
neither aggregated nor returned: they are discarded, the fan-out always
reaches every child, and the parent returns Ok whenever sharding succeeded. -/
theorem cm_resolver_update_fanout_total {T U : Type} [DecidableEq T]
    (shard : U → Except Nat (List (ChildUpdate T U)))
    (beh : Nat → U → ChildEffect) (s : ChildManagerState T) (nextPid : Nat)
    (u : U) (cus : List (ChildUpdate T U)) (h : shard u = .ok cus) :
    (cm_resolver_update shard beh s nextPid u).err = none ∧
    (cm_resolver_update shard beh s nextPid u).fanned =
      List.range cus.length := by
  simp [cm_resolver_update, h, reconcile_children_length]

theorem cm_resolver_update_fanout_total_witness :
    c4_shard 0 = .ok [⟨5, 10⟩, ⟨6, 11⟩] ∧
    (cm_resolver_update c4_shard c4_beh ⟨[], []⟩ 0 0).err = none ∧
    (cm_resolver_update c4_shard c4_beh ⟨[], []⟩ 0 0).fanned = List.range 2 :=
  ⟨rfl, (cm_resolver_update_fanout_total c4_shard c4_beh ⟨[], []⟩ 0 0 _ rfl).1,
    (cm_resolver_update_fanout_total c4_shard c4_beh ⟨[], []⟩ 0 0 _ rfl).2⟩

lemma alookup_foldl_mapInsert (l : List Subchannel) (v : Nat)
    (m : List (Subchannel × Nat)) (sc : Subchannel) :
    alookup (l.foldl (fun mm x => mapInsert mm x v) m) sc =
      if sc ∈ l then some v else alookup m sc := by
  induction l generalizing m with
  | nil => simp
  | cons x xs ih =>
    rw [List.foldl_cons, ih (mapInsert m x v), alookup_mapInsert]
    by_cases hx : sc = x <;> by_cases hmem : sc ∈ xs <;>
      simp [hx, hmem, List.mem_cons]

/-- C6: the wrapping controller intercepts update_picker (stored in the
calling child's capture, nothing published to the underlying controller),
forwards new_subchannel and request_resolution verbatim while recording
created subchannels, and resolve_child_controller records those subchannels as
owned by the calling child and writes only that child's LbState slot, and only
when that child issued a picker update. -/
theorem wrapped_controller_intercepts_and_forwards :
    (∀ w update, (wc_update_picker w update).inner = w.inner ∧
      (wc_update_picker w update).picker_update = some update) ∧
    (∀ w, ((wc_new_subchannel w).1.inner, (wc_new_subchannel w).2) =
        cc_new_subchannel w.inner ∧
      (wc_new_subchannel w).1.created_subchannels =
        w.created_subchannels ++ [(cc_new_subchannel w.inner).2]) ∧
    (∀ w, (wc_request_resolution w).inner = cc_request_resolution w.inner ∧
      (wc_request_resolution w).picker_update = w.picker_update ∧
      (wc_request_resolution w).created_subchannels = w.created_subchannels) ∧
    (∀ (T : Type) (s : ChildManagerState T) (w : WrappedController)
        (child_idx : Nat) (sc : Subchannel), sc ∈ w.created_subchannels →
      alookup (resolve_child_controller s w child_idx).subchannel_child_map sc =
        some child_idx) ∧
    (∀ (T : Type) (s : ChildManagerState T) (w : WrappedController)
        (child_idx i : Nat), i ≠ child_idx →
      (resolve_child_controller s w child_idx).children.get? i =
        s.children.get? i) ∧
    (∀ (T : Type) (s : ChildManagerState T) (w : WrappedController)
        (child_idx : Nat), w.picker_update = none →
      (resolve_child_controller s w child_idx).children = s.children) ∧
    (∀ (T : Type) (s : ChildManagerState T) (w : WrappedController)
        (child_idx : Nat) (st : LbState) (c : Child T),
      w.picker_update = some st → s.children.get? child_idx = some c →
      (resolve_child_controller s w child_idx).children.get? child_idx =
        some { c with state := st }) := by
  refine ⟨fun w update => ⟨rfl, rfl⟩, fun w => ⟨rfl, rfl⟩,
    fun w => ⟨rfl, rfl, rfl⟩, ?_, ?_, ?_, ?_⟩
  · intro T s w child_idx sc hmem
    simp [resolve_child_controller, alookup_foldl_mapInsert, hmem]
  · intro T s w child_idx i hne
    cases h : w.picker_update with
    | none => simp only [resolve_child_controller, h]
    | some st =>
      simp only [resolve_child_controller, h]
      exact listModify_get_ne _ _ _ _ hne
  · intro T s w child_idx h
    simp [resolve_child_controller, h]
  · intro T s w child_idx st c hw hc
    simp only [resolve_child_controller, hw]
    rw [listModify_get_eq, hc]
    rfl

theorem wrapped_controller_intercepts_and_forwards_witness :
    ((3 : Subchannel) ∈ (⟨⟨0, [], [], 0⟩, [3], none⟩ :
        WrappedController).created_subchannels) ∧
    alookup (resolve_child_controller
        (⟨[], [⟨0, 7, LbState.initial⟩]⟩ : ChildManagerState Nat)
        ⟨⟨0, [], [], 0⟩, [3], none⟩ 0).subchannel_child_map 3 = some 0 ∧
    (resolve_child_controller
        (⟨[], [⟨0, 7, LbState.initial⟩]⟩ : ChildManagerState Nat)
        ⟨⟨0, [], [], 0⟩, [3], none⟩ 0).children.get? 1 =
      ([⟨0, 7, LbState.initial⟩] : List (Child Nat)).get? 1 :=
  ⟨List.mem_singleton.mpr rfl,
    wrapped_controller_intercepts_and_forwards.2.2.2.1 Nat
      ⟨[], [⟨0, 7, LbState.initial⟩]⟩ ⟨⟨0, [], [], 0⟩, [3], none⟩ 0 3
      (List.mem_singleton.mpr rfl),
    wrapped_controller_intercepts_and_forwards.2.2.2.2.1 Nat
      ⟨[], [⟨0, 7, LbState.initial⟩]⟩ ⟨⟨0, [], [], 0⟩, [3], none⟩ 0 1
      (by decide)⟩

section MapLemmas

variable {κ : Type} [DecidableEq κ] {β : Type}

lemma removeKey_subset (m : List (κ × β)) (k : κ) (x : κ × β)
    (h : x ∈ removeKey m k) : x ∈ m := by
  induction m with
  | nil => simpa [removeKey] using h
  | cons e rest ih =>
    by_cases he : e.1 = k
    · rw [removeKey, if_pos he] at h
      exact List.mem_cons_of_mem _ (ih h)
    · rw [removeKey, if_neg he] at h
      rcases List.mem_cons.mp h with h1 | h2
      · rw [h1]
        exact List.mem_cons_self _ _
      · exact List.mem_cons_of_mem _ (ih h2)

lemma mem_foldl_mapInsert :
    ∀ (l m : List (κ × β)) (x : κ × β),
      x ∈ l.foldl (fun mm e => mapInsert mm e.1 e.2) m → x ∈ m ∨ x ∈ l := by
  intro l
  induction l with
  | nil =>
    intro m x h
    exact .inl h
  | cons e rest ih =>
    intro m x h
    rw [List.foldl_cons] at h
    rcases ih _ x h with h1 | h2
    · rw [mapInsert] at h1
      rcases List.mem_append.mp h1 with ha | hb
      · exact .inl (removeKey_subset _ _ _ ha)
      · have hx : x = e := by simpa using hb
        right
        rw [hx]
        exact List.mem_cons_self _ _
    · exact .inr (List.mem_cons_of_mem _ h2)

lemma alookup_foldl_mapInsert_not_mem :
    ∀ (l m : List (κ × β)) (k : κ), k ∉ l.map Prod.fst →
      alookup (l.foldl (fun mm e => mapInsert mm e.1 e.2) m) k = alookup m k := by
  intro l
  induction l with
  | nil => intro m k _; rfl
  | cons e rest ih =>
    intro m k h
    have h1 : k ≠ e.1 := fun hk => h (by
      rw [List.map_cons, List.mem_cons]
      exact .inl hk)
    have h2 : k ∉ rest.map Prod.fst := fun hk => h (by
      rw [List.map_cons]
      exact List.mem_cons_of_mem _ hk)
    rw [List.foldl_cons, ih _ _ h2, alookup_mapInsert, if_neg h1]

lemma alookup_foldl_mapInsert_mem :
    ∀ (l m : List (κ × β)) (k : κ) (v : β),
      (l.map Prod.fst).Nodup → (k, v) ∈ l →
      alookup (l.foldl (fun mm e => mapInsert mm e.1 e.2) m) k = some v := by
  intro l
  induction l with
  | nil =>
    intro m k v _ h
    simp at h
  | cons e rest ih =>
    intro m k v hnd hmem
    rw [List.map_cons, List.nodup_cons] at hnd
    rcases List.mem_cons.mp hmem with h1 | h2
    · have hk : k = e.1 := by rw [← h1]
      have hv : v = e.2 := by rw [← h1]
      have hnot : k ∉ rest.map Prod.fst := by
        rw [hk]
        exact hnd.1
      rw [List.foldl_cons, alookup_foldl_mapInsert_not_mem rest _ k hnot,
        alookup_mapInsert, if_pos hk, hv]
    · rw [List.foldl_cons]
      exact ih _ k v hnd.2 h2

lemma alookup_of_mem_nodup :
    ∀ (m : List (κ × β)) (k : κ) (v : β), (m.map Prod.fst).Nodup →
      (k, v) ∈ m → alookup m k = some v := by
  intro m
  induction m with
  | nil =>
    intro k v _ h
    simp at h
  | cons e rest ih =>
    intro k v hnd hmem
    rw [List.map_cons, List.nodup_cons] at hnd
    rcases List.mem_cons.mp hmem with h1 | h2
    · have hk : e.1 = k := by rw [← h1]
      have hv : e.2 = v := by rw [← h1]
      rw [alookup, if_pos hk, hv]
    · have hne : e.1 ≠ k := by
        intro hk
        apply hnd.1
        rw [hk]
        exact List.mem_map.mpr ⟨(k, v), h2, rfl⟩
      rw [alookup, if_neg hne]
      exact ih k v hnd.2 h2

end MapLemmas

lemma mem_selKey (m : List (Subchannel × Nat)) (k : Nat) (sc : Subchannel) :
    sc ∈ selKey m k ↔ (sc, k) ∈ m := by
  induction m with
  | nil => simp [selKey]
  | cons e rest ih =>
    by_cases he : e.2 = k
    · rw [selKey, if_pos he]
      constructor
      · intro h
        rcases List.mem_cons.mp h with h1 | h2
        · exact List.mem_cons.mpr (.inl (by rw [h1, ← he]))
        · exact List.mem_cons_of_mem _ (ih.mp h2)
      · intro h
        rcases List.mem_cons.mp h with h1 | h2
        · exact List.mem_cons.mpr (.inl (congrArg Prod.fst h1))
        · exact List.mem_cons_of_mem _ (ih.mpr h2)
    · rw [selKey, if_neg he]
      rw [ih, List.mem_cons]
      constructor
      · exact fun h => .inr h
      · intro h
        rcases h with h1 | h2
        · exfalso
          apply he
          have := congrArg Prod.snd h1
          simpa using this.symm
        · exact h2

lemma alookup_pushEntry (a : List (Nat × List Subchannel)) (k2 : Nat)
    (sc : Subchannel) (k : Nat) :
    alookup (pushEntry a k2 sc) k =
      if k = k2 then some ((alookup a k2).getD [] ++ [sc]) else alookup a k := by
  induction a with
  | nil =>
    by_cases hk : k = k2
    · simp [pushEntry, alookup, hk]
    · have hk2 : ¬ k2 = k := fun h => hk h.symm
      simp [pushEntry, alookup, hk, hk2]
  | cons e rest ih =>
    by_cases he : e.1 = k2
    · rw [pushEntry, if_pos he]
      by_cases hk : k = k2
      · have hek : e.1 = k := he.trans hk.symm
        rw [alookup, if_pos hek, if_pos hk, alookup, if_pos he]
        rfl
      · have hek : ¬ e.1 = k := fun h => hk (by rw [← h, he])
        rw [alookup, if_neg hek, if_neg hk, alookup, if_neg hek]
    · rw [pushEntry, if_neg he]
      by_cases hek : e.1 = k
      · have hk : ¬ k = k2 := fun h => he (by rw [hek, h])
        rw [alookup, if_pos hek, if_neg hk, alookup, if_pos hek]
      · rw [alookup, if_neg hek, ih]
        by_cases hk : k = k2
        · rw [if_pos hk, if_pos hk, alookup, if_neg he]
        · rw [if_neg hk, if_neg hk, alookup, if_neg hek]

lemma alookup_invert_foldl :
    ∀ (m : List (Subchannel × Nat)) (acc : List (Nat × List Subchannel)) (k : Nat),
      alookup (m.foldl (fun a e => pushEntry a e.2 e.1) acc) k =
        match alookup acc k with
        | some scs => some (scs ++ selKey m k)
        | none => if selKey m k = [] then none else some (selKey m k) := by
  intro m
  induction m with
  | nil =>
    intro acc k
    cases h : alookup acc k <;> simp [selKey, h]
  | cons e rest ih =>
    intro acc k
    rw [List.foldl_cons, ih]
    by_cases hk : k = e.2
    · have he2 : e.2 = k := hk.symm
      rw [selKey, if_pos he2, alookup_pushEntry, if_pos hk]
      cases h : alookup acc k with
      | some scs =>
        have h2 : alookup acc e.2 = some scs := by
          rw [← hk]
          exact h
        simp [h2]
      | none =>
        have h2 : alookup acc e.2 = none := by
          rw [← hk]
          exact h
        simp [h2]
    · have he2 : ¬ e.2 = k := fun h => hk h.symm
      rw [selKey, if_neg he2, alookup_pushEntry, if_neg hk]

lemma alookup_invert (m : List (Subchannel × Nat)) (k : Nat) :
    alookup (invert m) k =
      if selKey m k = [] then none else some (selKey m k) := by
  rw [invert, alookup_invert_foldl]
  rfl

lemma alookup_invert_of_lookup {m : List (Subchannel × Nat)} {sc : Subchannel}
    {i : Nat} (h : alookup m sc = some i) :
    ∃ scs, alookup (invert m) i = some scs ∧ sc ∈ scs := by
  have hmem : (sc, i) ∈ m := alookup_mem h
  have hsel : sc ∈ selKey m i := (mem_selKey m i sc).mpr hmem
  have hne : ¬ selKey m i = [] := fun hnil => by
    rw [hnil] at hsel
    simp at hsel
  exact ⟨selKey m i, by rw [alookup_invert, if_neg hne], hsel⟩

lemma alookup_invert_unique {m : List (Subchannel × Nat)}
    (hnd : (m.map Prod.fst).Nodup) {sc : Subchannel} {k : Nat}
    {scs : List Subchannel} (h : alookup (invert m) k = some scs)
    (hmem : sc ∈ scs) : alookup m sc = some k := by
  rw [alookup_invert] at h
  by_cases hnil : selKey m k = []
  · rw [if_pos hnil] at h
    exact absurd h (by simp)
  · rw [if_neg hnil] at h
    have hsel : sc ∈ selKey m k := by
      rw [Option.some_inj.mp h]
      exact hmem
    exact alookup_of_mem_nodup m sc k hnd ((mem_selKey m k sc).mp hsel)

lemma buildOldMap_keys {T : Type} [DecidableEq T] (children : List (Child T)) :
    (children.enum.map fun e => (e.2.identifier, (e.2.policy, e.2.state, e.1))).map
        Prod.fst = children.map Child.identifier := by
  have hsnd : children.enum.map Prod.snd = children := by simp
  calc (children.enum.map fun e => (e.2.identifier, (e.2.policy, e.2.state, e.1))).map
        Prod.fst
      = children.enum.map fun e => e.2.identifier := by rw [List.map_map]; rfl
    _ = (children.enum.map Prod.snd).map Child.identifier := by rw [List.map_map]; rfl
    _ = children.map Child.identifier := by rw [hsnd]

lemma buildOldMap_lookup_some {T : Type} [DecidableEq T] {children : List (Child T)}
    (hnd : (children.map Child.identifier).Nodup) {i : Nat} {c : Child T}
    (hget : children.get? i = some c) :
    alookup (buildOldMap children) c.identifier = some (c.policy, c.state, i) := by
  rw [buildOldMap]
  apply alookup_foldl_mapInsert_mem
  · rw [buildOldMap_keys]
    exact hnd
  · apply List.mem_map.mpr
    refine ⟨(i, c), ?_, rfl⟩
    exact List.mk_mem_enum_iff_get?.mpr hget

lemma buildOldMap_lookup_none {T : Type} [DecidableEq T] {children : List (Child T)}
    {idv : T} (h : ∀ c ∈ children, c.identifier ≠ idv) :
    alookup (buildOldMap children) idv = none := by
  rw [buildOldMap, alookup_foldl_mapInsert_not_mem]
  · rfl
  · rw [buildOldMap_keys]
    intro hmem
    rcases List.mem_map.mp hmem with ⟨c, hc, hcid⟩
    exact h c hc hcid

lemma buildOldMap_lookup_inv {T : Type} [DecidableEq T] {children : List (Child T)}
    {k : T} {p : Nat × LbState × Nat}
    (h : alookup (buildOldMap children) k = some p) :
    children.get? p.2.2 = some ⟨k, p.1, p.2.1⟩ := by
  have hmem := alookup_mem h
  rw [buildOldMap] at hmem
  rcases mem_foldl_mapInsert _ _ _ hmem with h0 | h1
  · simp at h0
  · rcases List.mem_map.mp h1 with ⟨e, he, heq⟩
    obtain ⟨i, c⟩ := e
    have hget : children.get? i = some c := List.mk_mem_enum_iff_get?.mp he
    simp only [Prod.mk.injEq] at heq
    obtain ⟨hid, hp⟩ := heq
    cases hp
    obtain ⟨idf, pol, st⟩ := c
    cases hid
    exact hget

lemma reconcile_children_decomp {T : Type} [DecidableEq T] :
    ∀ (ids : List T) (oldMap : List (T × (Nat × LbState × Nat)))
      (oldInv : List (Nat × List Subchannel)) (acc : RecAcc T),
      (reconcile oldMap oldInv ids acc).children =
        acc.children ++ reconChildren oldMap ids acc.nextPid := by
  intro ids
  induction ids with
  | nil =>
    intro oldMap oldInv acc
    simp [reconcile, reconChildren]
  | cons identifier rest ih =>
    intro oldMap oldInv acc
    rw [reconcile, reconChildren]
    cases h : alookup oldMap identifier with
    | some pst => rw [ih]; simp
    | none => rw [ih]; simp

lemma reconChildren_get_matched {T : Type} [DecidableEq T] :
    ∀ (ids : List T) (j : Nat) (oldMap : List (T × (Nat × LbState × Nat)))
      (np : Nat) (idv : T) (pid : Nat) (st : LbState) (oi : Nat),
      ids.Nodup → ids.get? j = some idv →
      alookup oldMap idv = some (pid, st, oi) →
      (reconChildren oldMap ids np).get? j = some ⟨idv, pid, st⟩ := by
  intro ids
  induction ids with
  | nil =>
    intro j oldMap np idv pid st oi _ hj _
    simp at hj
  | cons identifier rest ih =>
    intro j oldMap np idv pid st oi hnd hj hlook
    rw [List.nodup_cons] at hnd
    cases j with
    | zero =>
      simp only [List.get?] at hj
      cases hj
      rw [reconChildren, hlook]
      rfl
    | succ j =>
      simp only [List.get?] at hj
      have hne : idv ≠ identifier := by
        intro hh
        apply hnd.1
        rw [← hh]
        exact List.get?_mem hj
      rw [reconChildren]
      cases h : alookup oldMap identifier with
      | some pst =>
        have hlook2 : alookup (removeKey oldMap identifier) idv = some (pid, st, oi) := by
          rw [alookup_removeKey, if_neg hne]
          exact hlook
        simpa using ih j _ np idv pid st oi hnd.2 hj hlook2
      | none =>
        simpa using ih j _ (np + 1) idv pid st oi hnd.2 hj hlook

lemma reconChildren_get_fresh {T : Type} [DecidableEq T] :
    ∀ (ids : List T) (j : Nat) (oldMap : List (T × (Nat × LbState × Nat)))
      (np : Nat) (idv : T),
      ids.get? j = some idv → alookup oldMap idv = none →
      ∃ pid, (reconChildren oldMap ids np).get? j =
          some ⟨idv, pid, LbState.initial⟩ ∧ np ≤ pid := by
  intro ids
  induction ids with
  | nil =>
    intro j oldMap np idv hj _
    simp at hj
  | cons identifier rest ih =>
    intro j oldMap np idv hj hlook
    cases j with
    | zero =>
      simp only [List.get?] at hj
      cases hj
      rw [reconChildren, hlook]
      exact ⟨np, rfl, Nat.le_refl np⟩
    | succ j =>
      simp only [List.get?] at hj
      rw [reconChildren]
      cases h : alookup oldMap identifier with
      | some pst =>
        have hlook2 : alookup (removeKey oldMap identifier) idv = none := by
          rw [alookup_removeKey]
          by_cases hne : idv = identifier
          · rw [if_pos hne]
          · rw [if_neg hne]
            exact hlook
        rcases ih j _ np idv hj hlook2 with ⟨pid, hg, hle⟩
        exact ⟨pid, by simpa using hg, hle⟩
      | none =>
        rcases ih j _ (np + 1) idv hj hlook with ⟨pid, hg, hle⟩
        exact ⟨pid, by simpa using hg, Nat.le_of_succ_le hle⟩

lemma fanoutGo_no_effects {T U : Type} {beh : Nat → U → ChildEffect}
    (hBeh : ∀ pid v, (beh pid v).created_subchannels = [] ∧
      (beh pid v).picker_update = none) :
    ∀ (children : List (Child T)) (updates : List U) (idx : Nat),
      fanoutGo beh idx children updates = (children, []) := by
  intro children
  induction children with
  | nil =>
    intro updates idx
    cases updates <;> rfl
  | cons c cs ih =>
    intro updates idx
    cases updates with
    | nil => rfl
    | cons u us =>
      simp [fanoutGo, (hBeh c.policy u).1, (hBeh c.policy u).2, ih us (idx + 1)]

lemma fanout_no_effects {T U : Type} {beh : Nat → U → ChildEffect}
    (hBeh : ∀ pid v, (beh pid v).created_subchannels = [] ∧
      (beh pid v).picker_update = none)
    (children : List (Child T)) (updates : List U)
    (scMap : List (Subchannel × Nat)) :
    fanout beh children updates scMap = (children, scMap) := by
  rw [fanout, fanoutGo_no_effects hBeh]
  rfl

lemma reconcile_scMap_preserved {T : Type} [DecidableEq T] :
    ∀ (ids : List T) (oldMap : List (T × (Nat × LbState × Nat)))
      (oldInv : List (Nat × List Subchannel)) (acc : RecAcc T) (sc : Subchannel)
      (v : Nat),
      alookup acc.scMap sc = some v →
      (∀ k scs, alookup oldInv k = some scs → sc ∉ scs) →
      alookup (reconcile oldMap oldInv ids acc).scMap sc = some v := by
  intro ids
  induction ids with
  | nil =>
    intro oldMap oldInv acc sc v hacc _
    exact hacc
  | cons identifier rest ih =>
    intro oldMap oldInv acc sc v hacc hgrp
    rw [reconcile]
    cases hl : alookup oldMap identifier with
    | some pst =>
      apply ih
      · show alookup _ sc = some v
        rw [alookup_foldl_mapInsert, if_neg, hacc]
        intro hmem
        cases h0 : alookup oldInv pst.2.2 with
        | none => rw [h0] at hmem; simp at hmem
        | some scs0 => rw [h0] at hmem; exact hgrp _ _ h0 hmem
      · intro k scs hk
        rw [alookup_removeKey] at hk
        by_cases hke : k = pst.2.2
        · rw [if_pos hke] at hk
          exact absurd hk (by simp)
        · rw [if_neg hke] at hk
          exact hgrp k scs hk
    | none =>
      exact ih _ _ _ sc v hacc hgrp

lemma reconcile_scMap_repoint {T : Type} [DecidableEq T] :
    ∀ (ids : List T) (j : Nat) (oldMap : List (T × (Nat × LbState × Nat)))
      (oldInv : List (Nat × List Subchannel)) (acc : RecAcc T) (idv : T)
      (pid : Nat) (st : LbState) (oi : Nat) (scs : List Subchannel)
      (sc : Subchannel),
      ids.Nodup →
      ids.get? j = some idv →
      alookup oldMap idv = some (pid, st, oi) →
      alookup oldInv oi = some scs →
      sc ∈ scs →
      alookup acc.scMap sc = none →
      (∀ k scs2, alookup oldInv k = some scs2 → sc ∈ scs2 → k = oi) →
      (∀ id2 p2, alookup oldMap id2 = some p2 → p2.2.2 = oi → id2 = idv) →
      alookup (reconcile oldMap oldInv ids acc).scMap sc =
        some (acc.children.length + j) := by
  intro ids
  induction ids with
  | nil =>
    intro j oldMap oldInv acc idv pid st oi scs sc _ hj
    simp at hj
  | cons identifier rest ih =>
    intro j oldMap oldInv acc idv pid st oi scs sc hnd hj hlook hinv hscs hacc
      hOnly hInj
    rw [List.nodup_cons] at hnd
    cases j with
    | zero =>
      simp only [List.get?] at hj
      cases hj
      rw [reconcile, hlook]
      apply reconcile_scMap_preserved
      · show alookup (((alookup oldInv oi).getD []).foldl
            (fun m sc2 => mapInsert m sc2 acc.children.length) acc.scMap) sc =
          some (acc.children.length + 0)
        rw [hinv, Option.getD_some, alookup_foldl_mapInsert, if_pos hscs,
          Nat.add_zero]
      · intro k scs2 hk
        rw [alookup_removeKey] at hk
        by_cases hke : k = oi
        · rw [if_pos hke] at hk
          exact absurd hk (by simp)
        · rw [if_neg hke] at hk
          intro hmem
          exact hke (hOnly k scs2 hk hmem)
    | succ j =>
      simp only [List.get?] at hj
      have hne : idv ≠ identifier := by
        intro hh
        apply hnd.1
        rw [← hh]
        exact List.get?_mem hj
      rw [reconcile]
      cases hl : alookup oldMap identifier with
      | some pst0 =>
        have hoine : pst0.2.2 ≠ oi := by
          intro hh
          exact hne.symm (hInj identifier pst0 hl hh) |>.elim
        have hlook2 : alookup (removeKey oldMap identifier) idv =
            some (pid, st, oi) := by
          rw [alookup_removeKey, if_neg hne]
          exact hlook
        have hinv2 : alookup (removeKey oldInv pst0.2.2) oi = some scs := by
          rw [alookup_removeKey, if_neg (fun hh => hoine hh.symm)]
          exact hinv
        have hacc2 : alookup (((alookup oldInv pst0.2.2).getD []).foldl
            (fun m sc2 => mapInsert m sc2 acc.children.length) acc.scMap) sc =
            none := by
          rw [alookup_foldl_mapInsert, if_neg, hacc]
          intro hmem
          cases h0 : alookup oldInv pst0.2.2 with
          | none =>
            rw [h0] at hmem
            simp at hmem
          | some s0 =>
            rw [h0] at hmem
            rw [Option.getD_some] at hmem
            exact hoine (hOnly _ _ h0 hmem)
        have hOnly2 : ∀ k scs2,
            alookup (removeKey oldInv pst0.2.2) k = some scs2 → sc ∈ scs2 →
            k = oi := by
          intro k scs2 hk hmem
          rw [alookup_removeKey] at hk
          by_cases hke : k = pst0.2.2
          · rw [if_pos hke] at hk
            exact absurd hk (by simp)
          · rw [if_neg hke] at hk
            exact hOnly k scs2 hk hmem
        have hInj2 : ∀ id2 p2,
            alookup (removeKey oldMap identifier) id2 = some p2 →
            p2.2.2 = oi → id2 = idv := by
          intro id2 p2 hk hp
          rw [alookup_removeKey] at hk
          by_cases hke : id2 = identifier
          · rw [if_pos hke] at hk
            exact absurd hk (by simp)
          · rw [if_neg hke] at hk
            exact hInj id2 p2 hk hp
        have hres := ih j (removeKey oldMap identifier)
          (removeKey oldInv pst0.2.2)
          ⟨acc.children ++ [⟨identifier, pst0.1, pst0.2.1⟩],
            ((alookup oldInv pst0.2.2).getD []).foldl
              (fun m sc2 => mapInsert m sc2 acc.children.length) acc.scMap,
            acc.nextPid⟩
          idv pid st oi scs sc hnd.2 hj hlook2 hinv2 hscs hacc2 hOnly2 hInj2
        have hlen : (acc.children ++
            [(⟨identifier, pst0.1, pst0.2.1⟩ : Child T)]).length + j =
            acc.children.length + (j + 1) := by
          simp
          omega
        rw [hlen] at hres
        exact hres
      | none =>
        have hres := ih j oldMap oldInv
          ⟨acc.children ++ [⟨identifier, acc.nextPid, LbState.initial⟩],
            acc.scMap, acc.nextPid + 1⟩
          idv pid st oi scs sc hnd.2 hj hlook hinv hscs hacc hOnly hInj
        have hlen : (acc.children ++
            [(⟨identifier, acc.nextPid, LbState.initial⟩ : Child T)]).length + j =
            acc.children.length + (j + 1) := by
          simp
          omega
        rw [hlen] at hres
        exact hres

lemma reconcile_scMap_dropped {T : Type} [DecidableEq T] :
    ∀ (ids : List T) (oldMap : List (T × (Nat × LbState × Nat)))
      (oldInv : List (Nat × List Subchannel)) (acc : RecAcc T) (sc : Subchannel),
      alookup acc.scMap sc = none →
      (∀ id2 ∈ ids, ∀ p2, alookup oldMap id2 = some p2 →
        ∀ scs2, alookup oldInv p2.2.2 = some scs2 → sc ∉ scs2) →
      alookup (reconcile oldMap oldInv ids acc).scMap sc = none := by
  intro ids
  induction ids with
  | nil =>
    intro oldMap oldInv acc sc hacc _
    exact hacc
  | cons identifier rest ih =>
    intro oldMap oldInv acc sc hacc hgrp
    rw [reconcile]
    cases hl : alookup oldMap identifier with
    | some pst =>
      apply ih
      · show alookup (((alookup oldInv pst.2.2).getD []).foldl
            (fun m sc2 => mapInsert m sc2 acc.children.length) acc.scMap) sc =
          none
        rw [alookup_foldl_mapInsert, if_neg, hacc]
        intro hmem
        cases h0 : alookup oldInv pst.2.2 with
        | none =>
          rw [h0] at hmem
          simp at hmem
        | some s0 =>
          rw [h0, Option.getD_some] at hmem
          exact hgrp identifier (List.mem_cons_self _ _) pst hl s0 h0 hmem
      · intro id2 hid2 p2 hk scs2 hs2
        rw [alookup_removeKey] at hk
        by_cases hke : id2 = identifier
        · rw [if_pos hke] at hk
          exact absurd hk (by simp)
        · rw [if_neg hke] at hk
          rw [alookup_removeKey] at hs2
          by_cases hse : p2.2.2 = pst.2.2
          · rw [if_pos hse] at hs2
            exact absurd hs2 (by simp)
          · rw [if_neg hse] at hs2
            exact hgrp id2 (List.mem_cons_of_mem _ hid2) p2 hk scs2 hs2
    | none =>
      exact ih oldMap oldInv _ sc hacc
        (fun id2 hid2 p2 hk scs2 hs2 =>
          hgrp id2 (List.mem_cons_of_mem _ hid2) p2 hk scs2 hs2)

/-- C2: after a successful ChildManager::resolver_update (with identifiers
unique on each side, a well-formed ownership map, children issuing no
controller effects during this fan-out, and old policy ids below the fresh-id
supply): a new child whose identifier equals an old child's keeps that child's
policy instance and last LbState and every owned Subchannel is re-pointed at
the new index; a new identifier with no match gets a freshly built policy
(never an old instance) with LbState::initial(); a dropped old child's
subchannels vanish from the ownership map. -/
theorem cm_resolver_update_reconciles {T U : Type} [DecidableEq T]
    (shard : U → Except Nat (List (ChildUpdate T U)))
    (beh : Nat → U → ChildEffect) (s : ChildManagerState T) (nextPid : Nat)
    (u : U) (cus : List (ChildUpdate T U))
    (hshard : shard u = .ok cus)
    (hNodupNew : (cus.map ChildUpdate.child_identifier).Nodup)
    (hNodupOld : (s.children.map Child.identifier).Nodup)
    (hNodupMap : (s.subchannel_child_map.map Prod.fst).Nodup)
    (hBeh : ∀ pid v, (beh pid v).created_subchannels = [] ∧
      (beh pid v).picker_update = none)
    (hPid : ∀ c ∈ s.children, c.policy < nextPid) :
    (cm_resolver_update shard beh s nextPid u).err = none ∧
    (∀ j i cu c, cus.get? j = some cu → s.children.get? i = some c →
      cu.child_identifier = c.identifier →
      ((cm_resolver_update shard beh s nextPid u).state.children.get? j =
          some ⟨c.identifier, c.policy, c.state⟩ ∧
        ∀ sc, alookup s.subchannel_child_map sc = some i →
          alookup (cm_resolver_update shard beh s
            nextPid u).state.subchannel_child_map sc = some j)) ∧
    (∀ j cu, cus.get? j = some cu →
      (∀ c ∈ s.children, c.identifier ≠ cu.child_identifier) →
      ∃ pid, (cm_resolver_update shard beh s nextPid u).state.children.get? j =
          some ⟨cu.child_identifier, pid, LbState.initial⟩ ∧
        ∀ c ∈ s.children, c.policy ≠ pid) ∧
    (∀ sc i c, alookup s.subchannel_child_map sc = some i →
      s.children.get? i = some c →
      (∀ cu ∈ cus, cu.child_identifier ≠ c.identifier) →
      alookup (cm_resolver_update shard beh s
        nextPid u).state.subchannel_child_map sc = none) := by
  have hch : (cm_resolver_update shard beh s nextPid u).state.children =
      (reconcile (buildOldMap s.children) (invert s.subchannel_child_map)
        (cus.map ChildUpdate.child_identifier) ⟨[], [], nextPid⟩).children := by
    simp only [cm_resolver_update, hshard, fanout_no_effects hBeh]
  have hmap : (cm_resolver_update shard beh s
      nextPid u).state.subchannel_child_map =
      (reconcile (buildOldMap s.children) (invert s.subchannel_child_map)
        (cus.map ChildUpdate.child_identifier) ⟨[], [], nextPid⟩).scMap := by
    simp only [cm_resolver_update, hshard, fanout_no_effects hBeh]
  have herr : (cm_resolver_update shard beh s nextPid u).err = none := by
    simp only [cm_resolver_update, hshard]
  refine ⟨herr, ?_, ?_, ?_⟩
  · intro j i cu c hj hi hEq
    have hids : (cus.map ChildUpdate.child_identifier).get? j =
        some c.identifier := by
      rw [List.get?_map, hj]
      show some cu.child_identifier = some c.identifier
      rw [hEq]
    have hlook : alookup (buildOldMap s.children) c.identifier =
        some (c.policy, c.state, i) := buildOldMap_lookup_some hNodupOld hi
    constructor
    · rw [hch, reconcile_children_decomp, List.nil_append]
      exact reconChildren_get_matched _ j _ nextPid c.identifier c.policy
        c.state i hNodupNew hids hlook
    · intro sc hsc
      rcases alookup_invert_of_lookup hsc with ⟨scs, hinv, hscs⟩
      have hOnly : ∀ k scs2,
          alookup (invert s.subchannel_child_map) k = some scs2 → sc ∈ scs2 →
          k = i := by
        intro k scs2 hk hmem
        have := alookup_invert_unique hNodupMap hk hmem
        rw [hsc] at this
        exact (Option.some_inj.mp this).symm
      have hInj : ∀ id2 p2, alookup (buildOldMap s.children) id2 = some p2 →
          p2.2.2 = i → id2 = c.identifier := by
        intro id2 p2 hk hp
        have hg := buildOldMap_lookup_inv hk
        rw [hp, hi] at hg
        have : c = ⟨id2, p2.1, p2.2.1⟩ := Option.some_inj.mp hg
        rw [this]
      have hres := reconcile_scMap_repoint
        (cus.map ChildUpdate.child_identifier) j (buildOldMap s.children)
        (invert s.subchannel_child_map) ⟨[], [], nextPid⟩ c.identifier c.policy
        c.state i scs sc hNodupNew hids hlook hinv hscs rfl hOnly hInj
      rw [hmap, hres]
      simp
  · intro j cu hj hno
    have hids : (cus.map ChildUpdate.child_identifier).get? j =
        some cu.child_identifier := by
      rw [List.get?_map, hj]
      rfl
    have hlook : alookup (buildOldMap s.children) cu.child_identifier = none :=
      buildOldMap_lookup_none hno
    rcases reconChildren_get_fresh (cus.map ChildUpdate.child_identifier) j
        (buildOldMap s.children) nextPid cu.child_identifier hids hlook with
      ⟨pid, hg, hle⟩
    refine ⟨pid, ?_, ?_⟩
    · rw [hch, reconcile_children_decomp, List.nil_append]
      exact hg
    · intro c hc hpe
      have := hPid c hc
      omega
  · intro sc i c hsc hi hno
    rw [hmap]
    apply reconcile_scMap_dropped
    · rfl
    · intro id2 hid2 p2 hk scs2 hs2 hmem
      have huniq := alookup_invert_unique hNodupMap hs2 hmem
      rw [hsc] at huniq
      have hii : p2.2.2 = i := (Option.some_inj.mp huniq).symm
      have hg := buildOldMap_lookup_inv hk
      rw [hii, hi] at hg
      have hcid : c.identifier = id2 := by
        have : c = ⟨id2, p2.1, p2.2.1⟩ := Option.some_inj.mp hg
        rw [this]
      rcases List.mem_map.mp hid2 with ⟨cu, hcu, hcuid⟩
      exact hno cu hcu (by rw [hcuid, ← hcid])

theorem cm_resolver_update_reconciles_witness :
    (cm_resolver_update c2_shard c2_beh c2_old 102 0).state.children.get? 0 =
      some ⟨2, 101, ⟨ready, Picker.tagged 2⟩⟩ ∧
    alookup (cm_resolver_update c2_shard c2_beh c2_old
      102 0).state.subchannel_child_map 51 = some 0 ∧
    (∃ pid, (cm_resolver_update c2_shard c2_beh c2_old
        102 0).state.children.get? 1 = some ⟨3, pid, LbState.initial⟩ ∧
      ∀ c ∈ c2_old.children, c.policy ≠ pid) ∧
    alookup (cm_resolver_update c2_shard c2_beh c2_old
      102 0).state.subchannel_child_map 50 = none := by
  have h := cm_resolver_update_reconciles c2_shard c2_beh c2_old 102 0 _ rfl
    (by decide) (by decide) (by decide) (fun _ _ => ⟨rfl, rfl⟩) (by decide)
  exact ⟨(h.2.1 0 1 ⟨2, 0⟩ ⟨2, 101, ⟨ready, Picker.tagged 2⟩⟩ rfl rfl rfl).1,
    (h.2.1 0 1 ⟨2, 0⟩ ⟨2, 101, ⟨ready, Picker.tagged 2⟩⟩ rfl rfl rfl).2 51 rfl,
    h.2.2.1 1 ⟨3, 0⟩ rfl (by decide),
    h.2.2.2 50 0 ⟨1, 100, ⟨idle, Picker.tagged 1⟩⟩ rfl rfl (by decide)⟩

end Tonic
